import Mathlib

/-!
Verification of the gDocsFS sources (`gdoc.py`, `gdocsfs.py`) against their
natural-language specification.

Shallow embedding conventions:
* Python `str` values are modelled as `List Char`; Python `bytes` as
  `List Nat` whose members the code keeps in `0..255` (the range check that
  the `bytes(...)` constructor performs is modelled explicitly).
* Python dicts are modelled as insertion-ordered association lists with the
  usual dict operations (`dictGet`, `dictSet`, `dictPop`); `dictSet` updates
  the value in place when the key exists and appends otherwise, exactly as a
  Python dict preserves insertion order.
* A raised Python exception is modelled as `Except.error` carrying a `PyErr`;
  `FuseOSError(e)` is `PyErr.fuseError e`; failing `assert` statements are
  `PyErr.assertError`; dictionary/index lookups that raise are
  `PyErr.keyError` / `PyErr.indexError`; the `bytes` range `ValueError` is
  `PyErr.valueError`; an HTTP failure from the Docs/Drive API (for example a
  request on a deleted or `None` document id) is `PyErr.backendError`.
* Wall-clock timestamps (`st_ctime`/`st_mtime`/`st_atime`, set from
  `time.time()`) are outside the model; no claim mentions them.
-/

/-- Errors a call can raise.  `fuseError` is `FuseOSError(errno)`. -/
inductive PyErr where
  | fuseError (errno : Nat)
  | keyError
  | indexError
  | valueError
  | assertError
  | backendError
deriving DecidableEq, Repr

deriving instance DecidableEq for Except

def ENOENT : Nat := 2
def EBADF : Nat := 9
def ENOTEMPTY : Nat := 39

/-! ### Python dict operations on insertion-ordered association lists -/

/-- `d[k]`, as an `Option` (`none` corresponds to `KeyError`/`not in`). -/
def dictGet {κ α : Type} [DecidableEq κ] : List (κ × α) → κ → Option α
  | [], _ => none
  | p :: rest, k => if p.1 = k then some p.2 else dictGet rest k

/-- `k in d`. -/
def dictContains {κ α : Type} [DecidableEq κ] (d : List (κ × α)) (k : κ) : Bool :=
  (dictGet d k).isSome

/-- `d[k] = v`: replaces in place when the key exists, else appends. -/
def dictSet {κ α : Type} [DecidableEq κ] : List (κ × α) → κ → α → List (κ × α)
  | [], k, v => [(k, v)]
  | p :: rest, k, v => if p.1 = k then (k, v) :: rest else p :: dictSet rest k v

/-- `d.pop(k)` (the mapping with the entry for `k` removed). -/
def dictPop {κ α : Type} [DecidableEq κ] : List (κ × α) → κ → List (κ × α)
  | [], _ => []
  | p :: rest, k => if p.1 = k then rest else p :: dictPop rest k

theorem dictGet_dictSet_self {κ α : Type} [DecidableEq κ]
    (d : List (κ × α)) (k : κ) (v : α) : dictGet (dictSet d k v) k = some v := by
  induction d with
  | nil => simp [dictSet, dictGet]
  | cons p rest ih =>
    by_cases h : p.1 = k
    · simp [dictSet, h, dictGet]
    · simp [dictSet, h, dictGet, ih]

/-! ### Python `str.split(sep)` and `sep.join` on character lists -/

/-- `s.split(sep)` for a one-character separator: keeps empty pieces, and
splitting the empty string yields `[""]`, exactly as in Python. -/
def pySplit (sep : Char) : List Char → List (List Char)
  | [] => [[]]
  | c :: cs =>
    match pySplit sep cs with
    | [] => [[]]
    | t :: ts => if c = sep then [] :: t :: ts else (c :: t) :: ts

/-- `sep.join(pieces)` for a one-character separator. -/
def pyJoin (sep : Char) : List (List Char) → List Char
  | [] => []
  | [x] => x
  | x :: y :: xs => x ++ sep :: pyJoin sep (y :: xs)

theorem pySplit_cons_eq (sep c : Char) (cs : List Char) {t : List Char}
    {ts : List (List Char)} (hs : pySplit sep cs = t :: ts) :
    pySplit sep (c :: cs) = if c = sep then [] :: t :: ts else (c :: t) :: ts := by
  simp only [pySplit, hs]

theorem pySplit_ne_nil (sep : Char) (l : List Char) : pySplit sep l ≠ [] := by
  induction l with
  | nil => simp [pySplit]
  | cons c cs ih =>
    obtain ⟨t, ts, hs⟩ : ∃ t ts, pySplit sep cs = t :: ts := by
      cases h : pySplit sep cs with
      | nil => exact absurd h ih
      | cons t ts => exact ⟨t, ts, rfl⟩
    rw [pySplit_cons_eq sep c cs hs]
    by_cases h : c = sep
    · rw [if_pos h]; simp
    · rw [if_neg h]; simp

/-- Piece lengths plus the number of pieces account for the whole string
(plus one, because `n` separators produce `n + 1` pieces). -/
theorem pySplit_sum_length (sep : Char) (l : List Char) :
    ((pySplit sep l).map List.length).sum + (pySplit sep l).length = l.length + 1 := by
  induction l with
  | nil => simp [pySplit]
  | cons c cs ih =>
    obtain ⟨t, ts, hs⟩ : ∃ t ts, pySplit sep cs = t :: ts := by
      cases h : pySplit sep cs with
      | nil => exact absurd h (pySplit_ne_nil sep cs)
      | cons t ts => exact ⟨t, ts, rfl⟩
    rw [hs] at ih
    rw [pySplit_cons_eq sep c cs hs]
    simp only [List.map_cons, List.sum_cons, List.length_cons] at ih
    by_cases h : c = sep
    · rw [if_pos h]
      simp only [List.map_cons, List.sum_cons, List.length_cons, List.length_nil]
      omega
    · rw [if_neg h]
      simp only [List.map_cons, List.sum_cons, List.length_cons]
      omega

theorem pyJoin_length_le (sep : Char) (xs : List (List Char)) :
    (pyJoin sep xs).length ≤ (xs.map List.length).sum + xs.length := by
  induction xs with
  | nil => simp [pyJoin]
  | cons x ys ih =>
    cases ys with
    | nil => simp [pyJoin]
    | cons y zs =>
      simp only [pyJoin, List.length_append, List.length_cons, List.map_cons,
        List.sum_cons] at ih ⊢
      omega

theorem sum_le_of_sublist {l₁ l₂ : List Nat} (h : l₁.Sublist l₂) : l₁.sum ≤ l₂.sum := by
  induction h with
  | slnil => simp
  | cons a h ih => simp; omega
  | cons₂ a h ih => simp; omega

/-- The decrease that drives every path-walking recursion in `gdocsfs.py`:
each step re-joins the remaining components with `'/'.join`, and that joined
remainder is strictly shorter than the path that was just split. -/
theorem path_step_lt (path : List Char) (hne : path ≠ []) {c : List Char}
    {rest : List (List Char)}
    (h2 : (pySplit '/' path).filter (fun x => x ≠ []) = c :: rest) :
    (pyJoin '/' rest).length < path.length := by
  have hsum := pySplit_sum_length '/' path
  have hsub : (c :: rest).Sublist (pySplit '/' path) := by
    rw [← h2]; exact List.filter_sublist _
  have hsubm : ((c :: rest).map List.length).Sublist ((pySplit '/' path).map List.length) :=
    hsub.map List.length
  have hsums : ((c :: rest).map List.length).sum ≤ ((pySplit '/' path).map List.length).sum :=
    sum_le_of_sublist hsubm
  have hlen : (c :: rest).length ≤ (pySplit '/' path).length := hsub.length_le
  have hcne : c ≠ [] := by
    have : c ∈ (pySplit '/' path).filter (fun x => x ≠ []) := by
      rw [h2]; exact List.mem_cons_self _ _
    have := List.of_mem_filter this
    simpa using this
  have hc1 : 1 ≤ c.length := by
    cases c with
    | nil => exact absurd rfl hcne
    | cons _ _ => simp
  have hj := pyJoin_length_le '/' rest
  have hp1 : 1 ≤ path.length := by
    cases path with
    | nil => exact absurd rfl hne
    | cons _ _ => simp
  simp only [List.map_cons, List.sum_cons, List.length_cons] at hsums hlen
  omega

/-! ### Decimal rendering and parsing (`str(b)` for a byte, `int(s)`) -/

/-- `'0' + d` for a digit value `d < 10`. -/
def digitChar (d : Nat) : Char := Char.ofNat (48 + d)

/-- Digits of `n`, most significant first, produced straight out of the
`str(n)` loop; the fuel argument only bounds the recursion depth and `n`
itself is always enough fuel (proved below). -/
def natToDecAux : Nat → Nat → List Char
  | 0, _ => []
  | _ + 1, 0 => []
  | fuel + 1, n + 1 =>
    natToDecAux fuel ((n + 1) / 10) ++ [digitChar ((n + 1) % 10)]

/-- `str(n)` for a nonnegative integer `n` (decimal, no sign, `"0"` for 0). -/
def natToDec (n : Nat) : List Char :=
  if n = 0 then ['0'] else natToDecAux n n

/-- `s.isdigit()` restricted to ASCII decimal digits (the only characters the
codec ever emits). -/
def pyIsDigit (s : List Char) : Bool :=
  !s.isEmpty && s.all Char.isDigit

/-- `int(s)` on an all-digit string. -/
def pyInt (s : List Char) : Nat :=
  s.foldl (fun a c => a * 10 + (c.toNat - 48)) 0

theorem digitChar_toNat {d : Nat} (h : d < 10) : (digitChar d).toNat = 48 + d := by
  interval_cases d <;> decide

theorem digitChar_isDigit {d : Nat} (h : d < 10) : (digitChar d).isDigit = true := by
  interval_cases d <;> decide

theorem digitChar_ne_comma {d : Nat} (h : d < 10) : digitChar d ≠ ',' := by
  interval_cases d <;> decide

theorem natToDecAux_foldl (fuel : Nat) : ∀ n a, n ≤ fuel →
    List.foldl (fun a c => a * 10 + (c.toNat - 48)) a (natToDecAux fuel n) =
      a * 10 ^ (natToDecAux fuel n).length + n := by
  induction fuel with
  | zero =>
    intro n a hn
    interval_cases n
    simp [natToDecAux]
  | succ fuel ih =>
    intro n a hn
    cases n with
    | zero => simp [natToDecAux]
    | succ m =>
      have hdiv : (m + 1) / 10 ≤ fuel := by
        have := Nat.div_le_self (m + 1) 10
        have h2 : (m + 1) / 10 < m + 1 := Nat.div_lt_self (Nat.succ_pos m) (by omega)
        omega
      have hmod : (m + 1) % 10 < 10 := Nat.mod_lt _ (by omega)
      rw [show natToDecAux (fuel + 1) (m + 1) =
            natToDecAux fuel ((m + 1) / 10) ++ [digitChar ((m + 1) % 10)] from rfl]
      rw [List.foldl_append, ih ((m + 1) / 10) a hdiv]
      simp only [List.foldl_cons, List.foldl_nil, List.length_append,
        List.length_singleton]
      rw [digitChar_toNat hmod, Nat.add_sub_cancel_left, pow_succ, ← mul_assoc]
      have hdm : 10 * ((m + 1) / 10) + (m + 1) % 10 = m + 1 := Nat.div_add_mod (m + 1) 10
      generalize a * 10 ^ (natToDecAux fuel ((m + 1) / 10)).length = X
      omega

theorem natToDecAux_all_digits (fuel : Nat) : ∀ n, ∀ c ∈ natToDecAux fuel n,
    c.isDigit = true := by
  induction fuel with
  | zero => intro n c hc; simp [natToDecAux] at hc
  | succ fuel ih =>
    intro n c hc
    cases n with
    | zero => simp [natToDecAux] at hc
    | succ m =>
      simp only [natToDecAux, List.mem_append, List.mem_singleton] at hc
      rcases hc with hc | hc
      · exact ih _ c hc
      · rw [hc]; exact digitChar_isDigit (Nat.mod_lt _ (by omega))

theorem natToDec_all_digits (n : Nat) : ∀ c ∈ natToDec n, c.isDigit = true := by
  intro c hc
  by_cases h : n = 0
  · simp [natToDec, h] at hc; rw [hc]; decide
  · simp only [natToDec, h, if_false] at hc
    exact natToDecAux_all_digits n n c hc

theorem natToDec_ne_nil (n : Nat) : natToDec n ≠ [] := by
  by_cases h : n = 0
  · simp [natToDec, h]
  · simp only [natToDec, h, if_false]
    cases n with
    | zero => exact absurd rfl h
    | succ m => simp [natToDecAux]

theorem natToDec_no_comma (n : Nat) : ',' ∉ natToDec n := by
  intro hmem
  have := natToDec_all_digits n ',' hmem
  simp [Char.isDigit] at this

theorem pyIsDigit_natToDec (n : Nat) : pyIsDigit (natToDec n) = true := by
  have h1 := natToDec_ne_nil n
  have h2 := natToDec_all_digits n
  simp only [pyIsDigit, Bool.and_eq_true, Bool.not_eq_true']
  constructor
  · cases h : natToDec n with
    | nil => exact absurd h h1
    | cons _ _ => simp [List.isEmpty]
  · rw [List.all_eq_true]; exact h2

theorem pyInt_natToDec (n : Nat) : pyInt (natToDec n) = n := by
  by_cases h : n = 0
  · simp [natToDec, h, pyInt]
  · simp only [natToDec, h, if_false, pyInt]
    rw [natToDecAux_foldl n n 0 (le_refl n)]
    simp

/-! ### The content codec (`gdoc.py` lines 47-56) -/

/-- `bytes_to_string(byte_seq)`: each byte is rendered as its decimal value
followed by a comma (`result += f'{str(b)},'`). -/
def bytes_to_string (byteSeq : List Nat) : List Char :=
  byteSeq.foldl (fun result b => result ++ natToDec b ++ [',']) []

/-- The `bytes(...)` constructor applied to a sequence of ints: raises
`ValueError` when a value is outside `0..255` (values here are `Nat`, so only
the upper bound can fail). -/
def bytesOfInts : List Nat → Except PyErr (List Nat)
  | [] => .ok []
  | x :: xs =>
    if x < 256 then (bytesOfInts xs).map (fun l => x :: l) else .error .valueError

/-- `string_to_bytes(string)`: split on `','`, keep the tokens that satisfy
`isdigit`, parse each with `int`, and collect them with `bytes(...)`. -/
def string_to_bytes (string : List Char) : Except PyErr (List Nat) :=
  bytesOfInts (((pySplit ',' string).filter pyIsDigit).map pyInt)

theorem bytes_to_string_acc (l : List Nat) : ∀ acc : List Char,
    List.foldl (fun result b => result ++ natToDec b ++ [',']) acc l
      = acc ++ List.foldl (fun result b => result ++ natToDec b ++ [',']) [] l := by
  induction l with
  | nil => intro acc; simp
  | cons x xs ih =>
    intro acc
    simp only [List.foldl_cons]
    rw [ih (acc ++ natToDec x ++ [','])]
    rw [ih (([] : List Char) ++ natToDec x ++ [','])]
    simp

theorem bytes_to_string_cons (x : Nat) (l : List Nat) :
    bytes_to_string (x :: l) = natToDec x ++ [','] ++ bytes_to_string l := by
  unfold bytes_to_string
  simp only [List.foldl_cons]
  rw [bytes_to_string_acc]
  simp

theorem pySplit_token_prepend (tok rest : List Char) (hnc : ',' ∉ tok) :
    pySplit ',' (tok ++ ',' :: rest) = tok :: pySplit ',' rest := by
  obtain ⟨t, ts, hrest⟩ : ∃ t ts, pySplit ',' rest = t :: ts := by
    cases h : pySplit ',' rest with
    | nil => exact absurd h (pySplit_ne_nil ',' rest)
    | cons t ts => exact ⟨t, ts, rfl⟩
  induction tok with
  | nil =>
    simp only [List.nil_append]
    rw [pySplit_cons_eq ',' ',' rest hrest, if_pos rfl, hrest]
  | cons c cs ih =>
    have hc : c ≠ ',' := by
      intro h
      exact hnc (by rw [h]; exact List.mem_cons_self _ _)
    have hnc' : ',' ∉ cs := by
      intro h
      exact hnc (List.mem_cons_of_mem _ h)
    have ih' : pySplit ',' (cs ++ ',' :: rest) = cs :: t :: ts := by
      rw [ih hnc', hrest]
    rw [List.cons_append, pySplit_cons_eq ',' c _ ih', if_neg hc, hrest]

theorem pySplit_bytes_to_string (l : List Nat) :
    pySplit ',' (bytes_to_string l) = l.map natToDec ++ [[]] := by
  induction l with
  | nil => simp [bytes_to_string, pySplit]
  | cons x xs ih =>
    rw [bytes_to_string_cons]
    have h : natToDec x ++ [','] ++ bytes_to_string xs
        = natToDec x ++ ',' :: bytes_to_string xs := by simp
    rw [h, pySplit_token_prepend _ _ (natToDec_no_comma x), ih]
    simp

theorem bytesOfInts_ok {l : List Nat} (h : ∀ x ∈ l, x < 256) :
    bytesOfInts l = .ok l := by
  induction l with
  | nil => rfl
  | cons x xs ih =>
    have hx : x < 256 := h x (List.mem_cons_self _ _)
    rw [show bytesOfInts (x :: xs)
        = if x < 256 then (bytesOfInts xs).map (fun l => x :: l)
          else .error .valueError from rfl]
    rw [if_pos hx, ih (fun y hy => h y (List.mem_cons_of_mem _ hy))]
    rfl

theorem bytesOfInts_err {l : List Nat} (h : ∃ x ∈ l, 256 ≤ x) :
    bytesOfInts l = .error .valueError := by
  induction l with
  | nil => simp at h
  | cons y ys ih =>
    obtain ⟨x, hx, hge⟩ := h
    rw [show bytesOfInts (y :: ys)
        = if y < 256 then (bytesOfInts ys).map (fun l => y :: l)
          else .error .valueError from rfl]
    by_cases hy : y < 256
    · have hxm : x ∈ ys := by
        cases List.mem_cons.mp hx with
        | inl he => omega
        | inr h2 => exact h2
      rw [if_pos hy, ih ⟨x, hxm, hge⟩]
      rfl
    · rw [if_neg hy]

/-- C2: decoding the encoding of any byte sequence returns exactly that
sequence: `string_to_bytes(bytes_to_string(b)) == b` (the hypothesis records
that the members of a Python `bytes` object are in `0..255`). -/
theorem c2_codec_roundtrip (b : List Nat) (h : ∀ x ∈ b, x < 256) :
    string_to_bytes (bytes_to_string b) = .ok b := by
  unfold string_to_bytes
  rw [pySplit_bytes_to_string]
  have hfilter : ((b.map natToDec ++ [[]]).filter pyIsDigit) = b.map natToDec := by
    rw [List.filter_append]
    have h1 : (b.map natToDec).filter pyIsDigit = b.map natToDec := by
      apply List.filter_eq_self.mpr
      intro a ha
      obtain ⟨x, _, rfl⟩ := List.mem_map.mp ha
      exact pyIsDigit_natToDec x
    have h2 : ([[]] : List (List Char)).filter pyIsDigit = [] := by
      simp [pyIsDigit]
    rw [h1, h2, List.append_nil]
  rw [hfilter]
  have hmap : ∀ bl : List Nat, List.map pyInt (List.map natToDec bl) = bl := by
    intro bl
    induction bl with
    | nil => rfl
    | cons x xs ih => simp [pyInt_natToDec, ih]
  rw [hmap]
  exact bytesOfInts_ok h

/-- Witness for C2 at `b = [0, 255, 7]` (zero byte and extremes included). -/
theorem c2_codec_roundtrip_witness :
    (∀ x ∈ [0, 255, 7], x < 256)
      ∧ string_to_bytes (bytes_to_string [0, 255, 7]) = .ok [0, 255, 7] :=
  ⟨by decide, c2_codec_roundtrip [0, 255, 7] (by decide)⟩

/-! ### The remote document backend (`gdoc.py` lines 118-267)

A Google Doc body is a single paragraph whose `textRun` content always ends
with the final newline the Docs API keeps at the end of the body; positions
in `batchUpdate` requests are 1-indexed over that text (`WRITE_OFFSET`).  The
backend is modelled as the mapping from document id to that full text, plus a
counter for allocating fresh ids in `create_doc`. -/

structure Backend where
  docs : List (Nat × List Char)
  nextId : Nat
deriving DecidableEq, Repr

/-- Docs is 1-indexed, so all write indices are offset by this. -/
def WRITE_OFFSET : Nat := 1

/-- `SERVICE.documents().get(...)`: the full body text of the document.  A
`None` or unknown id makes the HTTP call fail. -/
def fetchText (b : Backend) (docId : Option Nat) : Except PyErr (List Char) :=
  match docId with
  | none => .error .backendError
  | some i =>
    match dictGet b.docs i with
    | none => .error .backendError
    | some text => .ok text

def setText (b : Backend) (docId : Nat) (text : List Char) : Backend :=
  { b with docs := dictSet b.docs docId text }

/-- `deleteContentRange` over the 1-indexed range `[startIndex, endIndex)`. -/
def applyDeleteRange (text : List Char) (startIndex endIndex : Nat) : List Char :=
  text.take (startIndex - 1) ++ text.drop (endIndex - 1)

/-- `insertText` at a 1-indexed location. -/
def applyInsertText (text : List Char) (index : Nat) (ins : List Char) : List Char :=
  text.take (index - 1) ++ ins ++ text.drop (index - 1)

/-- Truthiness of the `num_bytes` argument (`if num_bytes:` in Python is
false both for `None` and for `0`). -/
def numBytesTruthy : Option Nat → Bool
  | none => false
  | some n => n != 0

/-- `read_strucutural_elements(elements, offset, num_bytes)` (source spelling
kept), starting from the text of the single paragraph element (the asserts
about the element/paragraph structure of the fetched JSON are upstream of
this text and are not part of the byte-level model): record the raw text
length, strip newlines, decode, assert the decode re-encodes to the stripped
text, then slice only when `num_bytes` is truthy. -/
def read_strucutural_elements (text : List Char) (offset : Nat)
    (numBytes : Option Nat) : Except PyErr (List Nat × Nat) :=
  let totalContentLen := text.length
  let stripped := text.filter fun c => c ≠ '\n'
  match string_to_bytes stripped with
  | .error e => .error e
  | .ok byteSeq =>
    if stripped = bytes_to_string byteSeq then
      if numBytesTruthy numBytes then
        .ok ((byteSeq.drop offset).take (numBytes.getD 0), totalContentLen)
      else
        .ok (byteSeq, totalContentLen)
    else .error .assertError

/-- `read_doc(doc_id, offset, num_bytes)`: fetch the document and read it. -/
def read_doc (b : Backend) (docId : Option Nat) (offset : Nat)
    (numBytes : Option Nat) : Except PyErr (List Nat × Nat) :=
  match fetchText b docId with
  | .error e => .error e
  | .ok text => read_strucutural_elements text offset numBytes

/-- The `assert(',,' not in byte_str)` check of `write_doc`. -/
def hasDoubleComma : List Char → Bool
  | ',' :: ',' :: _ => true
  | _ :: rest => hasDoubleComma rest
  | [] => false

/-- `write_doc(doc_id, offset, content)`: read the whole document, splice
`content` in at `offset` (`current[:offset] + content + current[offset:]` —
an insertion), re-encode, and push the result back as one `batchUpdate` that
deletes the old range `[1, total_content_len)` (skipped when the document is
blank, `total_content_len <= 1`) and inserts the new text at index 1 (skipped
when the new text is empty).  The source re-reads the document through
`read_doc`; with the backend as pure state the fetched text is the stored
text, matched on once here. -/
def write_doc (b : Backend) (docId : Option Nat) (offset : Nat)
    (content : List Nat) : Except PyErr Backend :=
  match docId with
  | none => .error .backendError
  | some i =>
    match dictGet b.docs i with
    | none => .error .backendError
    | some text =>
      match read_strucutural_elements text 0 none with
      | .error e => .error e
      | .ok (currentContents, totalContentLen) =>
        let newContents :=
          currentContents.take offset ++ content ++ currentContents.drop offset
        let byteStr := bytes_to_string newContents
        if hasDoubleComma byteStr then .error .assertError
        else
          let text1 := if totalContentLen > 1
            then applyDeleteRange text WRITE_OFFSET totalContentLen else text
          let text2 := if byteStr ≠ []
            then applyInsertText text1 WRITE_OFFSET byteStr else text1
          if totalContentLen > 1 ∨ byteStr ≠ [] then .ok (setText b i text2)
          else .ok b

/-- `create_doc(title, contents)`: create a blank document (body text is the
single final newline) under a fresh id, then write `contents` to it when that
argument is truthy. -/
def create_doc (b : Backend) (title : List Char) (contents : Option (List Nat)) :
    Except PyErr (Backend × Nat) :=
  let docId := b.nextId
  let b1 : Backend := ⟨b.docs ++ [(docId, ['\n'])], b.nextId + 1⟩
  match contents with
  | some cs =>
    if cs ≠ [] then
      match write_doc b1 (some docId) 0 cs with
      | .error e => .error e
      | .ok b2 => .ok (b2, docId)
    else .ok (b1, docId)
  | none => .ok (b1, docId)

/-- `delete_doc(doc_id)`: Drive-side delete; fails on an unknown id. -/
def delete_doc (b : Backend) (docId : Nat) : Except PyErr Backend :=
  if dictContains b.docs docId then .ok { b with docs := dictPop b.docs docId }
  else .error .backendError

/-! ### Claims about the byte-range layer (`gdoc.py`) -/

/-- C1: the claim says `write(id, offset, data)` overwrites bytes
`[offset, offset+len(data))`, zero-padding any gap past the current end.  The
code instead computes `current[:offset] + content + current[offset:]` — an
insertion.  Evaluated at the claim's own examples: on `"hello world"`,
`write(id, 6, "WORLD")` yields `"hello WORLDworld"` (16 bytes), not
`"hello WORLD"`; on `"hello"`, `write(id, 7, "!!")` yields `"hello!!"`
(7 bytes, no zero padding), not `"hello\x5C0\x5C0!!"`. -/
theorem c1_write_inserts_instead_of_overwriting :
    (Except.map (fun b => read_doc b (some 0) 0 none)
      (write_doc ⟨[(0, bytes_to_string [104,101,108,108,111,32,119,111,114,108,100]
          ++ ['\n'])], 1⟩ (some 0) 6 [87,79,82,76,68])
      = .ok (.ok ([104,101,108,108,111,32,87,79,82,76,68,119,111,114,108,100],
          (bytes_to_string
            [104,101,108,108,111,32,87,79,82,76,68,119,111,114,108,100]).length + 1)))
  ∧ (Except.map (fun b => read_doc b (some 0) 0 none)
      (write_doc ⟨[(0, bytes_to_string [104,101,108,108,111] ++ ['\n'])], 1⟩
        (some 0) 7 [33,33])
      = .ok (.ok ([104,101,108,108,111,33,33],
          (bytes_to_string [104,101,108,108,111,33,33]).length + 1)))
  ∧ ([104,101,108,108,111,32,87,79,82,76,68,119,111,114,108,100]
      ≠ [104,101,108,108,111,32,87,79,82,76,68])
  ∧ ([104,101,108,108,111,33,33] ≠ [104,101,108,108,111,0,0,33,33]) := by
  refine ⟨by decide, by decide, by decide, by decide⟩

/-- Modelled from the spec (§4.3 `read`), for comparison with the source:
decode the full text, and return everything from `offset` to the end when
`length` is omitted, else the slice `[offset, offset+length)` clipped.  Used
only to exhibit where `read_strucutural_elements` differs from the claim. -/
def read_spec (text : List Char) (offset : Nat) (numBytes : Option Nat) :
    Except PyErr (List Nat × Nat) :=
  match string_to_bytes (text.filter fun c => c ≠ '\n') with
  | .error e => .error e
  | .ok byteSeq =>
    match numBytes with
    | none => .ok (byteSeq.drop offset, byteSeq.length)
    | some n => .ok ((byteSeq.drop offset).take n, byteSeq.length)

/-- C3 counterexample: on a document holding the two bytes `[104, 105]`
(text `"104,105,\n"`), a read at `offset = 1` with the length omitted
returns all bytes `[104, 105]`, not the suffix `[105]` the claim describes;
at `offset = 5` (past the end) with length omitted it also returns all the
bytes instead of an empty result; and `length = 0` is treated as omitted
(Python truthiness), returning everything instead of an empty slice. -/
theorem c3_counterexample :
    Except.map Prod.fst (read_strucutural_elements ("104,105,\n".toList) 1 none)
      = .ok [104, 105]
  ∧ Except.map Prod.fst (read_spec ("104,105,\n".toList) 1 none) = .ok [105]
  ∧ Except.map Prod.fst (read_strucutural_elements ("104,105,\n".toList) 5 none)
      = .ok [104, 105]
  ∧ Except.map Prod.fst (read_strucutural_elements ("104,105,\n".toList) 0 (some 0))
      = .ok [104, 105]
  ∧ Except.map Prod.fst (read_spec ("104,105,\n".toList) 0 (some 0)) = .ok ([] : List Nat)
  ∧ ([104, 105] ≠ ([105] : List Nat)) ∧ ([104, 105] ≠ ([] : List Nat)) := by
  refine ⟨by decide, by decide, by decide, by decide, by decide, by decide, by decide⟩

/-- C3 (amended): a successful `read_strucutural_elements text offset nb`
returns the raw text length as the total, and: when `nb` is omitted or `0`
(falsy) it returns the whole decoded sequence, ignoring `offset`; when `nb`
is a positive length it returns the slice `[offset, offset+nb)` clipped to
the decoded length, and an offset at or past the end then yields the empty
sequence. -/
theorem c3_read_clipped_slice (text : List Char) (offset : Nat) (nb : Option Nat)
    (bs : List Nat) (total : Nat)
    (h : read_strucutural_elements text offset nb = .ok (bs, total)) :
    total = text.length ∧
    ∃ full, string_to_bytes (text.filter fun c => c ≠ '\n') = .ok full ∧
      bs = (if numBytesTruthy nb then (full.drop offset).take (nb.getD 0) else full) ∧
      (numBytesTruthy nb = true → full.length ≤ offset → bs = []) := by
  simp only [read_strucutural_elements] at h
  cases hs : string_to_bytes (text.filter fun c => c ≠ '\n') with
  | error e =>
    rw [hs] at h
    simp at h
  | ok full =>
    rw [hs] at h
    simp only [] at h
    by_cases ha : (text.filter fun c => c ≠ '\n') = bytes_to_string full
    · rw [if_pos ha] at h
      by_cases ht : numBytesTruthy nb = true
      · rw [if_pos ht] at h
        simp only [Except.ok.injEq, Prod.mk.injEq] at h
        obtain ⟨hbs, htot⟩ := h
        refine ⟨htot.symm, full, rfl, ?_, ?_⟩
        · rw [if_pos ht]; exact hbs.symm
        · intro _ hle
          rw [← hbs, List.drop_eq_nil_of_le hle]
          simp
      · rw [if_neg ht] at h
        simp only [Except.ok.injEq, Prod.mk.injEq] at h
        obtain ⟨hbs, htot⟩ := h
        refine ⟨htot.symm, full, rfl, ?_, ?_⟩
        · rw [if_neg ht]; exact hbs.symm
        · intro hcontra _; exact absurd hcontra ht
    · rw [if_neg ha] at h
      simp at h

/-- Witness for the amended C3 at a concrete slice: two-byte document, read
one byte at offset 1. -/
theorem c3_read_clipped_slice_witness :
    read_strucutural_elements ("104,105,\n".toList) 1 (some 1) = .ok ([105], 9)
  ∧ (9 = ("104,105,\n".toList).length ∧
      ∃ full, string_to_bytes (("104,105,\n".toList).filter fun c => c ≠ '\n')
          = .ok full ∧
        [105] = (if numBytesTruthy (some 1)
          then (full.drop 1).take ((some 1).getD 0) else full) ∧
        (numBytesTruthy (some 1) = true → full.length ≤ 1 → [105] = [])) :=
  ⟨by decide, c3_read_clipped_slice ("104,105,\n".toList) 1 (some 1) [105] 9 (by decide)⟩

/-- The decode pipeline exactly as composed inside
`read_strucutural_elements`: strip the line breaks the backend inserts, then
`string_to_bytes`. -/
def decode (text : List Char) : Except PyErr (List Nat) :=
  string_to_bytes (text.filter fun c => c ≠ '\n')

/-- C8: decode strips newlines, silently discards every token that is not an
all-digit string, parses the rest, and raises (rather than truncating or
wrapping) as soon as some digit token parses outside `0..255`; the two cases
are exhaustive, so decode never truncates a value. -/
theorem c8_decode_discards_and_range_checks (text : List Char) :
    ((∀ t ∈ (pySplit ',' (text.filter fun c => c ≠ '\n')).filter pyIsDigit,
        pyInt t < 256) →
      decode text
        = .ok (((pySplit ',' (text.filter fun c => c ≠ '\n')).filter
            pyIsDigit).map pyInt))
  ∧ ((∃ t ∈ (pySplit ',' (text.filter fun c => c ≠ '\n')).filter pyIsDigit,
        256 ≤ pyInt t) →
      decode text = .error .valueError) := by
  constructor
  · intro h
    unfold decode string_to_bytes
    apply bytesOfInts_ok
    intro x hx
    obtain ⟨t, ht, rfl⟩ := List.mem_map.mp hx
    exact h t ht
  · intro h
    obtain ⟨t, ht, hge⟩ := h
    unfold decode string_to_bytes
    exact bytesOfInts_err ⟨pyInt t, List.mem_map_of_mem _ ht, hge⟩

/-- Witness for C8: `"65,xy,,0\n"` decodes to `[65, 0]` (the malformed and
empty tokens are discarded without aborting), while `"65,300,"` raises
because `300` is out of byte range. -/
theorem c8_decode_discards_and_range_checks_witness :
    ((∀ t ∈ (pySplit ',' ("65,xy,,0\n".toList.filter fun c => c ≠ '\n')).filter
        pyIsDigit, pyInt t < 256)
      ∧ decode ("65,xy,,0\n".toList) = .ok [65, 0])
  ∧ ((∃ t ∈ (pySplit ',' ("65,300,".toList.filter fun c => c ≠ '\n')).filter
        pyIsDigit, 256 ≤ pyInt t)
      ∧ decode ("65,300,".toList) = .error .valueError) := by
  refine ⟨⟨by decide, ?_⟩, ⟨by decide, ?_⟩⟩
  · have h := (c8_decode_discards_and_range_checks ("65,xy,,0\n".toList)).1 (by decide)
    rw [h]; decide
  · exact (c8_decode_discards_and_range_checks ("65,300,".toList)).2 (by decide)

/-! ### The in-memory namespace (`gdocsfs.py`)

Each node is a Python dict with an `'attr'` entry and, for directories (and
the nodes `symlink` repurposes), a `'subdirs'` entry; `create` stores file
nodes without a `'subdirs'` key, so that entry is an `Option` and accessing
it on a file raises `KeyError`.  Attribute dicts are modelled by the fields
the claims read (`st_mode`, `st_nlink`, `st_size`); timestamps and
`st_uid`/`st_gid` are not modelled. -/

def S_IFDIR : Nat := 16384
def S_IFREG : Nat := 32768
def S_IFLNK : Nat := 40960

structure Attr where
  st_mode : Nat
  st_nlink : Nat
  st_size : Nat
deriving DecidableEq, Repr

inductive FNode where
  | mk (attr : Attr) (subdirs : Option (List (List Char × FNode)))

abbrev Files := List (List Char × FNode)

def FNode.attr : FNode → Attr
  | .mk a _ => a

def FNode.subdirs : FNode → Option Files
  | .mk _ s => s

def slash : List Char := ['/']

/-- `path_step_lt` restated for the `comps.tail` form the walkers use. -/
theorem path_step_lt_tail (path : List Char) (hne : path ≠ [])
    (hc : (pySplit '/' path).filter (fun x => x ≠ []) ≠ []) :
    (pyJoin '/' ((pySplit '/' path).filter (fun x => x ≠ [])).tail).length
      < path.length := by
  cases hcomp : (pySplit '/' path).filter (fun x => x ≠ []) with
  | nil => exact absurd hcomp hc
  | cons c rest =>
    have h := path_step_lt path hne hcomp
    simpa using h

/-- `_get_file_dict(path, files)`: asserts the path is nonempty, returns the
root for `'/'`, strips one leading `'/'` and descends into the root's
`subdirs`, and otherwise splits the path, resolving a single component
directly and recursing on `'/'.join` of the filtered remaining components
(`ENOENT` when a component is missing, `KeyError` when descending through a
node without a `'subdirs'` entry, `IndexError` when the filter leaves no
component). -/
def get_file_dict (path : List Char) (files : Files) : Except PyErr FNode :=
  if hpe : path = [] then .error .assertError
  else if path = slash then
    match dictGet files slash with
    | none => .error .keyError
    | some n => .ok n
  else if path.head? = some '/' then
    match dictGet files slash with
    | none => .error .keyError
    | some root =>
      match root.subdirs with
      | none => .error .keyError
      | some sd => get_file_dict path.tail sd
  else
    let folders := pySplit '/' path
    if folders.length = 1 then
      match dictGet files folders.headI with
      | none => .error (.fuseError ENOENT)
      | some n => .ok n
    else
      let comps := folders.filter (fun x => x ≠ [])
      if hc : comps = [] then .error .indexError
      else
        match dictGet files comps.headI with
        | none => .error (.fuseError ENOENT)
        | some n =>
          match n.subdirs with
          | none => .error .keyError
          | some newFiles => get_file_dict (pyJoin '/' comps.tail) newFiles
termination_by path.length
decreasing_by
  · have h1 : 0 < path.length := List.length_pos.mpr hpe
    have ht : path.tail.length = path.length - 1 := List.length_tail path
    omega
  · exact path_step_lt_tail path hpe hc

/-- Functional rendering of the source's mutation pattern
`d = self._get_file_dict(path, self.files); d[...] = ...`: walk exactly as
`_get_file_dict` does and rebuild the spine with the node at `path` replaced
by `f node` (`f` itself may raise, e.g. `KeyError` on a missing `'subdirs'`
entry). -/
def modifyFileDict (path : List Char) (files : Files)
    (f : FNode → Except PyErr FNode) : Except PyErr Files :=
  if hpe : path = [] then .error .assertError
  else if path = slash then
    match dictGet files slash with
    | none => .error .keyError
    | some n =>
      match f n with
      | .error e => .error e
      | .ok n' => .ok (dictSet files slash n')
  else if path.head? = some '/' then
    match dictGet files slash with
    | none => .error .keyError
    | some root =>
      match root.subdirs with
      | none => .error .keyError
      | some sd =>
        match modifyFileDict path.tail sd f with
        | .error e => .error e
        | .ok sd' => .ok (dictSet files slash (.mk root.attr (some sd')))
  else
    let folders := pySplit '/' path
    if folders.length = 1 then
      match dictGet files folders.headI with
      | none => .error (.fuseError ENOENT)
      | some n =>
        match f n with
        | .error e => .error e
        | .ok n' => .ok (dictSet files folders.headI n')
    else
      let comps := folders.filter (fun x => x ≠ [])
      if hc : comps = [] then .error .indexError
      else
        match dictGet files comps.headI with
        | none => .error (.fuseError ENOENT)
        | some n =>
          match n.subdirs with
          | none => .error .keyError
          | some newFiles =>
            match modifyFileDict (pyJoin '/' comps.tail) newFiles f with
            | .error e => .error e
            | .ok sd' => .ok (dictSet files comps.headI (.mk n.attr (some sd')))
termination_by path.length
decreasing_by
  · have h1 : 0 < path.length := List.length_pos.mpr hpe
    have ht : path.tail.length = path.length - 1 := List.length_tail path
    omega
  · exact path_step_lt_tail path hpe hc

/-- `_gen_dict(mode)`: a fresh directory node. -/
def gen_dict (mode : Nat) : FNode :=
  .mk ⟨S_IFDIR ||| mode, 2, 0⟩ (some [])

/-- `_mkdir_helper(path, files, mode)`: walks the components; creates a
missing component as a fresh directory and *bumps `st_nlink` on a component
that already exists*; the source's update of `files[curr_file]` followed by
the reassignment of its `'subdirs'` entry after the recursive call is one
`dictSet` with the final node here (same key, hence same dict slot).
Accessing `['subdirs']` on a node stored without one raises `KeyError` (in
the source that happens after the nlink bump mutated the node; the lost
partial mutation on a raising call is not observed by any claim).  The
recursion passes `'/'.join` of the filtered remaining components. -/
def mkdir_helper (path : List Char) (files : Files) (mode : Nat) :
    Except PyErr Files :=
  if path = slash then .ok files
  else if hpe : path = [] then .ok files
  else
    let folders := pySplit '/' path
    if folders.length = 1 then
      match dictGet files folders.headI with
      | none => .ok (dictSet files folders.headI (gen_dict mode))
      | some n => .ok (dictSet files folders.headI
          (.mk ⟨n.attr.st_mode, n.attr.st_nlink + 1, n.attr.st_size⟩ n.subdirs))
    else
      let comps := folders.filter (fun x => x ≠ [])
      if hc : comps = [] then .error .indexError
      else
        let currFile := comps.headI
        let node := match dictGet files currFile with
          | none => gen_dict mode
          | some n => .mk ⟨n.attr.st_mode, n.attr.st_nlink + 1, n.attr.st_size⟩ n.subdirs
        match node.subdirs with
        | none => .error .keyError
        | some newFiles =>
          match mkdir_helper (pyJoin '/' comps.tail) newFiles mode with
          | .error e => .error e
          | .ok added => .ok (dictSet files currFile (.mk node.attr (some added)))
termination_by path.length
decreasing_by exact path_step_lt_tail path hpe hc

/-! ### The Orchestrator state (`GDocsFS.__init__`) and operations -/

structure World where
  files : Files
  data : List (List Char × List Char)
  path_dids : List (List Char × Nat)
  fd_dids : List (Nat × Option Nat)
  fd : Nat
  backend : Backend

/-- `GDocsFS.__init__`: a root directory with mode `S_IFDIR | 0o755` and
`st_nlink` 2, empty symlink/path/handle tables, the fd counter at 3, and no
documents in the backend. -/
def initWorld : World :=
  { files := [(slash, .mk ⟨S_IFDIR ||| 0o755, 2, 0⟩ (some []))]
    data := []
    path_dids := []
    fd_dids := []
    fd := 3
    backend := ⟨[], 0⟩ }

/-- `self.files['/']`. -/
def getRoot (files : Files) : Except PyErr FNode :=
  match dictGet files slash with
  | none => .error .keyError
  | some n => .ok n

/-- `node['subdirs']`. -/
def subdirsOf (n : FNode) : Except PyErr Files :=
  match n.subdirs with
  | none => .error .keyError
  | some sd => .ok sd

/-- `getattr(path)`: the attribute record of the resolved node. -/
def GDocsFS.getattr (w : World) (path : List Char) : Except PyErr Attr :=
  (get_file_dict path w.files).map FNode.attr

/-- `mkdir(path, mode)`: rebuild the root's `subdirs` via
`_mkdir_helper(path[1:], ...)`, then unconditionally increment the root's
`st_nlink`. -/
def GDocsFS.mkdir (w : World) (path : List Char) (mode : Nat) :
    Except PyErr World :=
  match getRoot w.files with
  | .error e => .error e
  | .ok root =>
    match subdirsOf root with
    | .error e => .error e
    | .ok sd =>
      match mkdir_helper (path.drop 1) sd mode with
      | .error e => .error e
      | .ok sd' =>
        let root1 : FNode := .mk root.attr (some sd')
        let root2 : FNode := .mk ⟨root1.attr.st_mode, root1.attr.st_nlink + 1,
          root1.attr.st_size⟩ root1.subdirs
        .ok { w with files := dictSet w.files slash root2 }

/-- `symlink(target, source)`: `mkdir(target, 0o777)`, then replace the new
node's whole `attr` dict with symlink metadata (`st_size = len(source)`),
then record `data[target] = source`. -/
def GDocsFS.symlink (w : World) (target source : List Char) :
    Except PyErr World :=
  match GDocsFS.mkdir w target 0o777 with
  | .error e => .error e
  | .ok w1 =>
    match modifyFileDict target w1.files
        (fun n => .ok (.mk ⟨S_IFLNK ||| 0o777, 1, source.length⟩ n.subdirs)) with
    | .error e => .error e
    | .ok files' =>
      .ok { w1 with files := files', data := dictSet w1.data target source }

/-- `readlink(path)`: `self.data[path]` (a `KeyError` when absent). -/
def GDocsFS.readlink (w : World) (path : List Char) : Except PyErr (List Char) :=
  match dictGet w.data path with
  | none => .error .keyError
  | some s => .ok s

/-- `rename(old, new)` (a `TODO` in the source): move the `data[old]` entry
and the `self.files[old]` entry when those keys exist.  `self.files` only
ever has the single key `'/'`, so the node tree is untouched, and no error is
ever raised. -/
def GDocsFS.rename (w : World) (old new : List Char) : World :=
  let data' := match dictGet w.data old with
    | some v => dictSet (dictPop w.data old) new v
    | none => w.data
  let files' := match dictGet w.files old with
    | some v => dictSet (dictPop w.files old) new v
    | none => w.files
  { w with data := data', files := files' }

/-- The traversal loop of `unlink` — `for i in dirs[:-1]: if i != '':
files = files[i]['subdirs']`, then pop `dirs[-1]` when present — rebuilt
functionally along the descent (`IndexError` models `dirs[-1]` on an empty
list). -/
def unlink_walk : List (List Char) → Files → Except PyErr Files
  | [], _ => .error .indexError
  | [last], files =>
    .ok (if dictContains files last then dictPop files last else files)
  | i :: rest, files =>
    if i = [] then unlink_walk rest files
    else
      match dictGet files i with
      | none => .error .keyError
      | some n =>
        match n.subdirs with
        | none => .error .keyError
        | some sd =>
          match unlink_walk rest sd with
          | .error e => .error e
          | .ok sd' => .ok (dictSet files i (.mk n.attr (some sd')))

/-- `unlink(path)`: drop any `data[path]` entry, detach the node from its
parent directory, and, when `path_dids` maps the path, delete the backing
document — without ever removing the `path_dids` entry itself. -/
def GDocsFS.unlink (w : World) (path : List Char) : Except PyErr World :=
  let data' := if dictContains w.data path then dictPop w.data path else w.data
  let dirs := (pySplit '/' path).drop 1
  match getRoot w.files with
  | .error e => .error e
  | .ok root =>
    match subdirsOf root with
    | .error e => .error e
    | .ok sd =>
      match unlink_walk dirs sd with
      | .error e => .error e
      | .ok sd' =>
        let files' := dictSet w.files slash (.mk root.attr (some sd'))
        match dictGet w.path_dids path with
        | some docId =>
          match delete_doc w.backend docId with
          | .error e => .error e
          | .ok b' => .ok { w with files := files', data := data', backend := b' }
        | none => .ok { w with files := files', data := data' }

/-- `open(path, flags)` (`openFile` here; `open` is reserved in Lean):
increment the fd counter, bind the new fd to the path's document id — a
`KeyError` when `path_dids` has no entry (the already-incremented counter is
then lost with the raised exception, which no claim observes). -/
def GDocsFS.openFile (w : World) (path : List Char) :
    Except PyErr (World × Nat) :=
  let fd' := w.fd + 1
  match dictGet w.path_dids path with
  | none => .error .keyError
  | some docId =>
    .ok ({ w with fd := fd', fd_dids := dictSet w.fd_dids fd' (some docId) }, fd')

/-- `create(path, mode)`: create a backing document, record
`path_dids[path]`, ensure the parent chain with
`_mkdir_helper(path_minus_one[1:], ...)`, insert a fresh File node (stored
without a `'subdirs'` entry) into the parent found by `_get_file_dict`, and
allocate a handle.  `path_minus_one` starts with `'/'`, so the source's
`assert(path_minus_one != '')` always passes. -/
def GDocsFS.create (w : World) (path : List Char) (mode : Nat) :
    Except PyErr (World × Nat) :=
  if path = slash then .error .assertError
  else
    match create_doc w.backend path none with
    | .error e => .error e
    | .ok (b1, docId) =>
      let pathDids := dictSet w.path_dids path docId
      let comps := (pySplit '/' path).filter (fun x => x ≠ [])
      match comps.getLast? with
      | none => .error .indexError
      | some fileToCreate =>
        let pathMinusOne := '/' :: pyJoin '/' comps.dropLast
        match getRoot w.files with
        | .error e => .error e
        | .ok root =>
          match subdirsOf root with
          | .error e => .error e
          | .ok sd =>
            match mkdir_helper (pathMinusOne.drop 1) sd mode with
            | .error e => .error e
            | .ok sd' =>
              let files1 := dictSet w.files slash (.mk root.attr (some sd'))
              let newFile : FNode := .mk ⟨S_IFREG ||| mode, 1, 0⟩ none
              match modifyFileDict pathMinusOne files1
                  (fun n => match n.subdirs with
                    | none => .error .keyError
                    | some s =>
                      .ok (.mk n.attr (some (dictSet s fileToCreate newFile)))) with
              | .error e => .error e
              | .ok files2 =>
                let fd' := w.fd + 1
                .ok ({ files := files2, data := w.data, path_dids := pathDids,
                       fd_dids := dictSet w.fd_dids fd' (some docId), fd := fd',
                       backend := b1 }, fd')

inductive ReadRet where
  | bytes (bs : List Nat)
  | fuseErrValue (errno : Nat)
deriving DecidableEq, Repr

inductive WriteRet where
  | count (n : Nat)
  | fuseErrValue (errno : Nat)
deriving DecidableEq, Repr

/-- `read(path, length, offset, fh)`: on an unknown handle id the source
*returns* (does not raise) a `FuseOSError(EBADF)` object — a normal
`ReadRet.fuseErrValue` result here; otherwise it reads through the handle's
stored document id (which is `None` for a released handle, so the backend
call then fails). -/
def GDocsFS.read (w : World) (path : List Char) (length offset fh : Nat) :
    Except PyErr ReadRet :=
  match dictGet w.fd_dids fh with
  | none => .ok (.fuseErrValue EBADF)
  | some docId =>
    match read_doc w.backend docId offset (some length) with
    | .error e => .error e
    | .ok (string, _) => .ok (.bytes string)

/-- `write(path, buf, offset, fh)`: the same returned-not-raised
`FuseOSError(EBADF)` object on an unknown handle id; otherwise write through
the handle's document id, then add `len(buf)` to the node's cached
`st_size`, and return `len(buf)`. -/
def GDocsFS.write (w : World) (path : List Char) (buf : List Nat)
    (offset fh : Nat) : Except PyErr (World × WriteRet) :=
  match dictGet w.fd_dids fh with
  | none => .ok (w, .fuseErrValue EBADF)
  | some docId =>
    match write_doc w.backend docId offset buf with
    | .error e => .error e
    | .ok b' =>
      if path = [] then .error .assertError
      else
        match modifyFileDict path w.files
            (fun n => .ok (.mk ⟨n.attr.st_mode, n.attr.st_nlink,
              n.attr.st_size + buf.length⟩ n.subdirs)) with
        | .error e => .error e
        | .ok files' =>
          .ok ({ w with files := files', backend := b' }, .count buf.length)

/-- `truncate(path, length)`: read the whole document, `ljust` the bytes to
`length` with zero bytes (`ljust` pads but never shortens), write the result
back at offset 0 through `write_doc`, and set the node's cached `st_size` to
`length`. -/
def GDocsFS.truncate (w : World) (path : List Char) (length : Nat) :
    Except PyErr World :=
  match dictGet w.path_dids path with
  | none => .error .keyError
  | some docId =>
    match read_doc w.backend (some docId) 0 none with
    | .error e => .error e
    | .ok (currContent, _) =>
      let newContent := currContent ++ List.replicate (length - currContent.length) 0
      match write_doc w.backend (some docId) 0 newContent with
      | .error e => .error e
      | .ok b' =>
        if path = [] then .error .assertError
        else
          match modifyFileDict path w.files
              (fun n => .ok (.mk ⟨n.attr.st_mode, n.attr.st_nlink, length⟩
                n.subdirs)) with
          | .error e => .error e
          | .ok files' => .ok { w with files := files', backend := b' }

/-- `release(path, fh)`: `self.fd_dids[fh] = None` — the entry is nulled,
not removed, so the handle id still tests as present in the table. -/
def GDocsFS.release (w : World) (fh : Nat) : World :=
  { w with fd_dids := dictSet w.fd_dids fh none }

/-! ### Branch-wise unfolding equations for the path walkers (used both for
symbolic reasoning and to keep concrete evaluation out of the well-founded
fixpoint). -/

theorem get_file_dict_slash (files : Files) :
    get_file_dict slash files
      = (match dictGet files slash with
         | none => .error .keyError
         | some n => .ok n) := by
  rw [get_file_dict.eq_def]
  rfl

theorem get_file_dict_lead_slash (path : List Char) (files : Files)
    (hpe : path ≠ []) (hsl : path ≠ slash) (hhd : path.head? = some '/') :
    get_file_dict path files
      = (match dictGet files slash with
         | none => .error .keyError
         | some root =>
           match root.subdirs with
           | none => .error .keyError
           | some sd => get_file_dict path.tail sd) := by
  rw [get_file_dict.eq_def]
  rw [dif_neg hpe, if_neg hsl, if_pos hhd]

theorem get_file_dict_single (path : List Char) (files : Files)
    (hpe : path ≠ []) (hsl : path ≠ slash) (hhd : ¬path.head? = some '/')
    (hlen : (pySplit '/' path).length = 1) :
    get_file_dict path files
      = (match dictGet files (pySplit '/' path).headI with
         | none => .error (.fuseError ENOENT)
         | some n => .ok n) := by
  rw [get_file_dict.eq_def]
  rw [dif_neg hpe, if_neg hsl, if_neg hhd]
  simp only [if_pos hlen]

theorem get_file_dict_multi (path : List Char) (files : Files)
    (hpe : path ≠ []) (hsl : path ≠ slash) (hhd : ¬path.head? = some '/')
    (hlen : ¬(pySplit '/' path).length = 1)
    (hc : ¬((pySplit '/' path).filter (fun x => x ≠ [])) = []) :
    get_file_dict path files
      = (match dictGet files ((pySplit '/' path).filter (fun x => x ≠ [])).headI with
         | none => .error (.fuseError ENOENT)
         | some n =>
           match n.subdirs with
           | none => .error .keyError
           | some newFiles =>
             get_file_dict
               (pyJoin '/' ((pySplit '/' path).filter (fun x => x ≠ [])).tail)
               newFiles) := by
  rw [get_file_dict.eq_def]
  rw [dif_neg hpe, if_neg hsl, if_neg hhd]
  simp only [if_neg hlen, dif_neg hc]

theorem modifyFileDict_nil (files : Files) (f : FNode → Except PyErr FNode) :
    modifyFileDict [] files f = .error .assertError := by
  rw [modifyFileDict.eq_def]
  rfl

theorem modifyFileDict_slash (files : Files) (f : FNode → Except PyErr FNode) :
    modifyFileDict slash files f
      = (match dictGet files slash with
         | none => .error .keyError
         | some n =>
           match f n with
           | .error e => .error e
           | .ok n' => .ok (dictSet files slash n')) := by
  rw [modifyFileDict.eq_def]
  rfl

theorem modifyFileDict_lead_slash (path : List Char) (files : Files)
    (f : FNode → Except PyErr FNode)
    (hpe : path ≠ []) (hsl : path ≠ slash) (hhd : path.head? = some '/') :
    modifyFileDict path files f
      = (match dictGet files slash with
         | none => .error .keyError
         | some root =>
           match root.subdirs with
           | none => .error .keyError
           | some sd =>
             match modifyFileDict path.tail sd f with
             | .error e => .error e
             | .ok sd' => .ok (dictSet files slash (.mk root.attr (some sd')))) := by
  rw [modifyFileDict.eq_def]
  rw [dif_neg hpe, if_neg hsl, if_pos hhd]

theorem modifyFileDict_single (path : List Char) (files : Files)
    (f : FNode → Except PyErr FNode)
    (hpe : path ≠ []) (hsl : path ≠ slash) (hhd : ¬path.head? = some '/')
    (hlen : (pySplit '/' path).length = 1) :
    modifyFileDict path files f
      = (match dictGet files (pySplit '/' path).headI with
         | none => .error (.fuseError ENOENT)
         | some n =>
           match f n with
           | .error e => .error e
           | .ok n' => .ok (dictSet files (pySplit '/' path).headI n')) := by
  rw [modifyFileDict.eq_def]
  rw [dif_neg hpe, if_neg hsl, if_neg hhd]
  simp only [if_pos hlen]

theorem modifyFileDict_multi (path : List Char) (files : Files)
    (f : FNode → Except PyErr FNode)
    (hpe : path ≠ []) (hsl : path ≠ slash) (hhd : ¬path.head? = some '/')
    (hlen : ¬(pySplit '/' path).length = 1)
    (hc : ¬((pySplit '/' path).filter (fun x => x ≠ [])) = []) :
    modifyFileDict path files f
      = (match dictGet files ((pySplit '/' path).filter (fun x => x ≠ [])).headI with
         | none => .error (.fuseError ENOENT)
         | some n =>
           match n.subdirs with
           | none => .error .keyError
           | some newFiles =>
             match modifyFileDict
                 (pyJoin '/' ((pySplit '/' path).filter (fun x => x ≠ [])).tail)
                 newFiles f with
             | .error e => .error e
             | .ok sd' =>
               .ok (dictSet files ((pySplit '/' path).filter
                 (fun x => x ≠ [])).headI (.mk n.attr (some sd')))) := by
  rw [modifyFileDict.eq_def]
  rw [dif_neg hpe, if_neg hsl, if_neg hhd]
  simp only [if_neg hlen, dif_neg hc]

theorem modifyFileDict_multi_empty (path : List Char) (files : Files)
    (f : FNode → Except PyErr FNode)
    (hpe : path ≠ []) (hsl : path ≠ slash) (hhd : ¬path.head? = some '/')
    (hlen : ¬(pySplit '/' path).length = 1)
    (hc : ((pySplit '/' path).filter (fun x => x ≠ [])) = []) :
    modifyFileDict path files f = .error .indexError := by
  rw [modifyFileDict.eq_def]
  rw [dif_neg hpe, if_neg hsl, if_neg hhd]
  simp only [if_neg hlen, dif_pos hc]

/-- A successful `modifyFileDict path files f` implies the walk resolves the
same node before and after: resolution finds some `n` in the old tree,
`f n = .ok n'`, and resolves to `n'` in the rebuilt tree. -/
theorem modify_get (L : Nat) : ∀ (path : List Char) (files : Files)
    (f : FNode → Except PyErr FNode) (files' : Files),
    path.length ≤ L →
    modifyFileDict path files f = .ok files' →
    ∃ n n', get_file_dict path files = .ok n ∧ f n = .ok n' ∧
      get_file_dict path files' = .ok n' := by
  induction L with
  | zero =>
    intro path files f files' hlen hm
    have hpe : path = [] := List.eq_nil_of_length_eq_zero (Nat.le_zero.mp hlen)
    rw [hpe, modifyFileDict_nil] at hm
    exact absurd hm (by simp)
  | succ L ih =>
    intro path files f files' hlen hm
    by_cases hpe : path = []
    · rw [hpe, modifyFileDict_nil] at hm
      exact absurd hm (by simp)
    by_cases hsl : path = slash
    · rw [hsl, modifyFileDict_slash] at hm
      cases hg : dictGet files slash with
      | none => rw [hg] at hm; exact absurd hm (by simp)
      | some n =>
        rw [hg] at hm
        simp only [] at hm
        cases hf : f n with
        | error e => rw [hf] at hm; exact absurd hm (by simp)
        | ok n' =>
          rw [hf] at hm
          simp only [] at hm
          injection hm with hfe
          subst hfe
          refine ⟨n, n', ?_, hf, ?_⟩
          · rw [hsl, get_file_dict_slash, hg]
          · rw [hsl, get_file_dict_slash, dictGet_dictSet_self]
    by_cases hhd : path.head? = some '/'
    · rw [modifyFileDict_lead_slash path files f hpe hsl hhd] at hm
      cases hg : dictGet files slash with
      | none => rw [hg] at hm; exact absurd hm (by simp)
      | some root =>
        rw [hg] at hm
        simp only [] at hm
        cases hsd : root.subdirs with
        | none => rw [hsd] at hm; exact absurd hm (by simp)
        | some sd =>
          rw [hsd] at hm
          simp only [] at hm
          cases hrec : modifyFileDict path.tail sd f with
          | error e => rw [hrec] at hm; exact absurd hm (by simp)
          | ok sd' =>
            rw [hrec] at hm
            simp only [] at hm
            injection hm with hfe
            subst hfe
            have hlt : path.tail.length ≤ L := by
              have h1 : 0 < path.length := List.length_pos.mpr hpe
              have h2 : path.tail.length = path.length - 1 := List.length_tail path
              omega
            obtain ⟨n, n', hga, hfa, hgb⟩ := ih path.tail sd f sd' hlt hrec
            refine ⟨n, n', ?_, hfa, ?_⟩
            · rw [get_file_dict_lead_slash path files hpe hsl hhd, hg]
              simp only []
              rw [hsd]
              exact hga
            · rw [get_file_dict_lead_slash path _ hpe hsl hhd, dictGet_dictSet_self]
              simp only [FNode.subdirs]
              exact hgb
    by_cases hlen1 : (pySplit '/' path).length = 1
    · rw [modifyFileDict_single path files f hpe hsl hhd hlen1] at hm
      cases hg : dictGet files (pySplit '/' path).headI with
      | none => rw [hg] at hm; exact absurd hm (by simp)
      | some n =>
        rw [hg] at hm
        simp only [] at hm
        cases hf : f n with
        | error e => rw [hf] at hm; exact absurd hm (by simp)
        | ok n' =>
          rw [hf] at hm
          simp only [] at hm
          injection hm with hfe
          subst hfe
          refine ⟨n, n', ?_, hf, ?_⟩
          · rw [get_file_dict_single path files hpe hsl hhd hlen1, hg]
          · rw [get_file_dict_single path _ hpe hsl hhd hlen1, dictGet_dictSet_self]
    by_cases hcm : ((pySplit '/' path).filter (fun x => x ≠ [])) = []
    · rw [modifyFileDict_multi_empty path files f hpe hsl hhd hlen1 hcm] at hm
      exact absurd hm (by simp)
    · rw [modifyFileDict_multi path files f hpe hsl hhd hlen1 hcm] at hm
      cases hg : dictGet files ((pySplit '/' path).filter (fun x => x ≠ [])).headI with
      | none => rw [hg] at hm; exact absurd hm (by simp)
      | some n =>
        rw [hg] at hm
        simp only [] at hm
        cases hsd : n.subdirs with
        | none => rw [hsd] at hm; exact absurd hm (by simp)
        | some newFiles =>
          rw [hsd] at hm
          simp only [] at hm
          cases hrec : modifyFileDict
              (pyJoin '/' ((pySplit '/' path).filter (fun x => x ≠ [])).tail)
              newFiles f with
          | error e => rw [hrec] at hm; exact absurd hm (by simp)
          | ok sd' =>
            rw [hrec] at hm
            simp only [] at hm
            injection hm with hfe
            subst hfe
            have hlt : (pyJoin '/'
                ((pySplit '/' path).filter (fun x => x ≠ [])).tail).length ≤ L := by
              have := path_step_lt_tail path hpe hcm
              omega
            obtain ⟨m, m', hga, hfa, hgb⟩ := ih _ newFiles f sd' hlt hrec
            refine ⟨m, m', ?_, hfa, ?_⟩
            · rw [get_file_dict_multi path files hpe hsl hhd hlen1 hcm, hg]
              simp only []
              rw [hsd]
              exact hga
            · rw [get_file_dict_multi path _ hpe hsl hhd hlen1 hcm,
                dictGet_dictSet_self]
              simp only [FNode.subdirs]
              exact hgb

/-! ### Claims about the filesystem layer (`gdocsfs.py`) -/

set_option maxHeartbeats 1000000

/-- C4: the claim says `truncate(path, newLength)` leaves the document
holding exactly the first `newLength` bytes (shrink) or the zero-padded
content (grow), replacing the previous content.  The code pads with
`ljust` — which never cuts — and then calls `write_doc`, whose insert
semantics *prepends* the new sequence to the old one.  On a document holding
`[104, 105]`, `truncate("/f", 1)` leaves the backend holding
`[104, 105, 104, 105]` (and text length 17), not `[104]`, while the cached
`st_size` is set to 1. -/
theorem c4_truncate_never_cuts_and_prepends :
    ((GDocsFS.create initWorld ("/f".toList) 420).bind fun p =>
      (GDocsFS.write p.1 ("/f".toList) [104, 105] 0 p.2).bind fun q =>
        (GDocsFS.truncate q.1 ("/f".toList) 1).map fun w3 =>
          (read_doc w3.backend (some 0) 0 none,
           Except.map (fun n => n.attr.st_size) (get_file_dict ("/f".toList) w3.files)))
    = .ok (.ok ([104, 105, 104, 105], 17), .ok 1)
  ∧ ([104, 105, 104, 105] ≠ [104]) := by
  refine ⟨?_, by decide⟩
  simp [GDocsFS.create, GDocsFS.write, GDocsFS.truncate, create_doc, write_doc,
    read_doc, read_strucutural_elements, string_to_bytes, bytes_to_string,
    bytesOfInts, pyIsDigit, pyInt, natToDec, natToDecAux, digitChar,
    numBytesTruthy, fetchText, setText, applyDeleteRange, applyInsertText,
    hasDoubleComma, WRITE_OFFSET, delete_doc, getRoot, subdirsOf, mkdir_helper,
    gen_dict, get_file_dict, modifyFileDict, dictGet, dictSet, dictContains,
    dictPop, pySplit, pyJoin, slash, initWorld, FNode.attr, FNode.subdirs,
    Except.map, Except.bind]

/-- C5: the claim says repeating `mkdir("/a/b/c", mode)` is idempotent,
mutates no existing directory, and leaves `/a` with link count
2 + number of directory children = 3 either way.  In the code a single
`mkdir("/a/b/c")` on a fresh tree gives `/a` `st_nlink` 2 (the parent link
for the new child `/a/b` is never added), and repeating the call *mutates*
every existing component, bumping `/a` to 3: the value differs between one
call and two, so the call is not idempotent and existing metadata changes. -/
theorem c5_mkdir_not_idempotent_nlink :
    ((GDocsFS.mkdir initWorld ("/a/b/c".toList) 493).bind fun w1 =>
      (GDocsFS.mkdir w1 ("/a/b/c".toList) 493).map fun w2 =>
        (Except.map (fun n => n.attr.st_nlink) (get_file_dict ("/a".toList) w1.files),
         Except.map (fun n => n.attr.st_nlink) (get_file_dict ("/a".toList) w2.files)))
    = .ok (.ok 2, .ok 3) := by
  simp [GDocsFS.mkdir, getRoot, subdirsOf, mkdir_helper, gen_dict, get_file_dict,
    dictGet, dictSet, dictContains, pySplit, pyJoin, slash, initWorld,
    FNode.attr, FNode.subdirs, Except.map, Except.bind]

/-- C6: `unlink("/f")` does remove the File node (a later resolution fails
with `ENOENT`) and deletes exactly the node's backing document (the backend
becomes empty), but it never removes the `path_dids` entry, so a subsequent
`open("/f")` *succeeds*, returning a fresh handle (fd 5) bound to the
deleted document id instead of failing with `NotFound`. -/
theorem c6_unlink_leaves_dangling_mapping :
    ((GDocsFS.create initWorld ("/f".toList) 420).bind fun p =>
      (GDocsFS.unlink p.1 ("/f".toList)).map fun w2 =>
        (Except.map (fun n => n.attr.st_nlink) (get_file_dict ("/f".toList) w2.files),
         w2.backend.docs, dictGet w2.path_dids ("/f".toList),
         Except.map (fun q => q.2) (GDocsFS.openFile w2 ("/f".toList))))
    = .ok (.error (.fuseError ENOENT), [], some 0, .ok 5) := by
  simp [GDocsFS.create, GDocsFS.unlink, GDocsFS.openFile, unlink_walk, create_doc,
    delete_doc, write_doc, getRoot, subdirsOf, mkdir_helper, gen_dict, get_file_dict,
    modifyFileDict, dictGet, dictSet, dictContains, dictPop, pySplit, pyJoin, slash,
    initWorld, FNode.attr, FNode.subdirs, Except.map, Except.bind]

/-- C7: a read on a never-allocated handle id (99) *returns* the
`FuseOSError(EBADF)` object as an ordinary value instead of raising it; and
after `release` (which nulls, not removes, the handle-table entry) a read on
the released handle id (4) passes the `fh not in self.fd_dids` test and
proceeds into the backend call with document id `None`, failing there with a
backend error — in neither case is `EBADF` raised to the caller. -/
theorem c7_bad_handle_returned_not_raised :
    ((GDocsFS.create initWorld ("/f".toList) 420).map fun p =>
      (GDocsFS.read p.1 ("/f".toList) 5 0 99,
       GDocsFS.read (GDocsFS.release p.1 4) ("/f".toList) 5 0 4))
    = .ok (.ok (.fuseErrValue EBADF), .error .backendError) := by
  simp [GDocsFS.create, GDocsFS.read, GDocsFS.release, create_doc, read_doc,
    fetchText, getRoot, subdirsOf, mkdir_helper, gen_dict, modifyFileDict,
    dictGet, dictSet, dictContains, pySplit, pyJoin, slash, initWorld,
    FNode.attr, FNode.subdirs, Except.map, Except.bind]

/-- C9: after `mkdir("/a/b")`, `rename("/a/b", "/c")` leaves the subtree
fully reachable at `/a/b` and nothing at `/c` (the code only moves keys of
the flat `self.data`/`self.files` dicts, and `self.files` has only the key
`'/'`); and `rename` on a missing source path returns with no effect instead
of failing with `NotFound`. -/
theorem c9_rename_does_not_relocate :
    ((GDocsFS.mkdir initWorld ("/a/b".toList) 493).map fun w1 =>
      (Except.map (fun n => n.attr.st_nlink)
        (get_file_dict ("/a/b".toList)
          (GDocsFS.rename w1 ("/a/b".toList) ("/c".toList)).files),
       Except.map (fun n => n.attr.st_nlink)
        (get_file_dict ("/c".toList)
          (GDocsFS.rename w1 ("/a/b".toList) ("/c".toList)).files)))
    = .ok (.ok 2, .error (.fuseError ENOENT))
  ∧ GDocsFS.rename initWorld ("/missing".toList) ("/x".toList) = initWorld := by
  constructor
  · simp [GDocsFS.mkdir, GDocsFS.rename, getRoot, subdirsOf, mkdir_helper, gen_dict,
      get_file_dict, dictGet, dictSet, dictContains, dictPop, pySplit, pyJoin, slash,
      initWorld, FNode.attr, FNode.subdirs, Except.map, Except.bind]
  · rfl

/-- C10: whenever `symlink(target, source)` succeeds, `readlink(target)`
returns exactly `source`, and the symlink node's recorded `st_size` equals
`len(source)`. -/
theorem c10_symlink_readlink (w : World) (target source : List Char)
    (w' : World) (h : GDocsFS.symlink w target source = .ok w') :
    GDocsFS.readlink w' target = .ok source
      ∧ Except.map Attr.st_size (GDocsFS.getattr w' target) = .ok source.length := by
  unfold GDocsFS.symlink at h
  cases hmk : GDocsFS.mkdir w target 0o777 with
  | error e => rw [hmk] at h; exact absurd h (by simp)
  | ok w1 =>
    rw [hmk] at h
    try simp only [] at h
    cases hmod : modifyFileDict target w1.files
        (fun n => .ok (.mk ⟨S_IFLNK ||| 0o777, 1, source.length⟩ n.subdirs)) with
    | error e => rw [hmod] at h; exact absurd h (by simp)
    | ok files' =>
      rw [hmod] at h
      try simp only [] at h
      injection h with hw
      subst hw
      obtain ⟨n, n', hga, hfa, hgb⟩ := modify_get target.length target w1.files
        (fun n => .ok (.mk ⟨S_IFLNK ||| 0o777, 1, source.length⟩ n.subdirs))
        files' (le_refl _) hmod
      try simp only [] at hfa
      injection hfa with hn'
      subst hn'
      constructor
      · unfold GDocsFS.readlink
        simp only [dictGet_dictSet_self]
      · unfold GDocsFS.getattr
        try simp only []
        rw [hgb]
        rfl

/-- Witness for C10 at `symlink("/ln", "abc")`. -/
theorem c10_symlink_readlink_witness :
    (GDocsFS.symlink initWorld ("/ln".toList) ("abc".toList)).map
      (fun w' => (GDocsFS.readlink w' ("/ln".toList),
        Except.map Attr.st_size (GDocsFS.getattr w' ("/ln".toList))))
    = .ok (.ok ("abc".toList), .ok 3) := by
  cases h : GDocsFS.symlink initWorld ("/ln".toList) ("abc".toList) with
  | error e =>
    exact absurd h (by
      simp [GDocsFS.symlink, GDocsFS.mkdir, getRoot, subdirsOf, mkdir_helper,
        gen_dict, modifyFileDict, dictGet, dictSet, dictContains, pySplit, pyJoin,
        slash, initWorld, FNode.attr, FNode.subdirs, Except.map, Except.bind])
  | ok w' =>
    obtain ⟨h1, h2⟩ := c10_symlink_readlink initWorld ("/ln".toList)
      ("abc".toList) w' h
    simp only [Except.map] at h2 ⊢
    rw [h1, h2]
    rfl
